import Mathlib

/-!
# Verification of the `DeviceObjectArchive` binary archive format

A shallow embedding of `DeviceObjectArchive`
(`src/Graphics/GraphicsEngine/include/DeviceObjectArchive.hpp`): the on-disk
header structs, the region index, `LoadResourceData`, and models of the
out-of-line operations (constructor/parser, `Serialize`,
`GetDeviceSpecificData`, `RemoveDeviceData`) whose bodies are not part of the
sources; those are modelled from the specification document.

Machine integers (`Uint32`) are represented as `Nat` with explicit `% 2^32`
where C++ unsigned arithmetic may wrap.  Byte streams are `List Nat`
(each element a byte value).
-/

namespace DeviceObjectArchive

/-- `2^32`, the modulus of C++ `Uint32` arithmetic. -/
def u32Mod : Nat := 4294967296

/-- `DeviceObjectArchive::HeaderMagicNumber = 0xDE00000A`. -/
def HeaderMagicNumber : Nat := 0xDE00000A

/-- `DeviceObjectArchive::HeaderVersion = 2`. -/
def HeaderVersion : Nat := 2

/-- `DataHeaderBase::InvalidOffset = ~0u = 0xFFFFFFFF`. -/
def InvalidOffset : Nat := 4294967295

/-- `enum class DeviceType : Uint32 { OpenGL, Direct3D11, Direct3D12, Vulkan,
Metal_MacOS, Metal_iOS, Count }` (the six real device types; `Count` is not a
device). -/
inductive DeviceType where
  | OpenGL
  | Direct3D11
  | Direct3D12
  | Vulkan
  | Metal_MacOS
  | Metal_iOS
  deriving DecidableEq, Repr

/-- All six device types, in declaration order. -/
def DeviceType.all : List DeviceType :=
  [.OpenGL, .Direct3D11, .Direct3D12, .Vulkan, .Metal_MacOS, .Metal_iOS]

/-- `enum class BlockOffsetType : Uint32` — parallel to `DeviceType`. -/
inductive BlockOffsetType where
  | OpenGL
  | Direct3D11
  | Direct3D12
  | Vulkan
  | Metal_MacOS
  | Metal_iOS
  deriving DecidableEq, Repr

/-- Modelled from the spec: the body of the static method
`DeviceObjectArchive::GetBlockOffsetType(DeviceType)` is not in the sources;
the two enums are declared element-for-element parallel, so the map is the
evident bijection. -/
def GetBlockOffsetType : DeviceType → BlockOffsetType
  | .OpenGL => .OpenGL
  | .Direct3D11 => .Direct3D11
  | .Direct3D12 => .Direct3D12
  | .Vulkan => .Vulkan
  | .Metal_MacOS => .Metal_MacOS
  | .Metal_iOS => .Metal_iOS

/-- `enum class ChunkType : Uint32 { Undefined = 0, ArchiveDebugInfo,
ResourceSignature, GraphicsPipelineStates, ComputePipelineStates,
RayTracingPipelineStates, TilePipelineStates, RenderPass, Shaders, Count }`. -/
inductive ChunkType where
  | Undefined
  | ArchiveDebugInfo
  | ResourceSignature
  | GraphicsPipelineStates
  | ComputePipelineStates
  | RayTracingPipelineStates
  | TilePipelineStates
  | RenderPass
  | Shaders
  deriving DecidableEq, Repr

/-- The `Uint32` value of a `ChunkType` enumerator. -/
def ChunkType.toU32 : ChunkType → Nat
  | .Undefined => 0
  | .ArchiveDebugInfo => 1
  | .ResourceSignature => 2
  | .GraphicsPipelineStates => 3
  | .ComputePipelineStates => 4
  | .RayTracingPipelineStates => 5
  | .TilePipelineStates => 6
  | .RenderPass => 7
  | .Shaders => 8

/-- Decode a stored `Uint32` back into a `ChunkType` (partial: unknown values
are not chunk types). -/
def ChunkType.ofU32 : Nat → Option ChunkType
  | 0 => some .Undefined
  | 1 => some .ArchiveDebugInfo
  | 2 => some .ResourceSignature
  | 3 => some .GraphicsPipelineStates
  | 4 => some .ComputePipelineStates
  | 5 => some .RayTracingPipelineStates
  | 6 => some .TilePipelineStates
  | 7 => some .RenderPass
  | 8 => some .Shaders
  | _ => none

/-! ## Byte-stream primitives

All integers in the format are little-endian `Uint32`. -/

/-- Little-endian encoding of a `Uint32` value as 4 bytes. -/
def encU32 (x : Nat) : List Nat :=
  [x % 256, x / 256 % 256, x / 65536 % 256, x / 16777216 % 256]

/-- Little-endian decoding of 4 bytes (extra bytes ignored). -/
def decU32 (bs : List Nat) : Nat :=
  match bs with
  | b0 :: b1 :: b2 :: b3 :: _ => b0 % 256 + 256 * (b1 % 256) + 65536 * (b2 % 256) + 16777216 * (b3 % 256)
  | _ => 0

/-- Read `n` bytes of the stream `bs` starting at byte position `pos`;
fails when the range is out of bounds. -/
def readBytes (bs : List Nat) (pos n : Nat) : Option (List Nat) :=
  if pos + n ≤ bs.length then some ((bs.drop pos).take n) else none

/-- Read a little-endian `Uint32` at byte position `pos`. -/
def readU32 (bs : List Nat) (pos : Nat) : Option Nat :=
  (readBytes bs pos 4).map decU32

/-! ## Data model: `ArchiveRegion` and the fixed-size header structs -/

/-- `struct ArchiveRegion { Uint32 Offset; Uint32 Size; }`. -/
structure ArchiveRegion where
  Offset : Nat
  Size : Nat
  deriving DecidableEq, Repr

/-- `struct DataHeaderBase`: a chunk-type tag plus, per device type, a data
size and a data offset (`~0u` = absent).  The two `std::array<Uint32, 6>`
members are modelled as functions from `DeviceType`. -/
structure DataHeaderBase where
  Type' : ChunkType
  DeviceSpecificDataSize : DeviceType → Nat
  DeviceSpecificDataOffset : DeviceType → Nat

/-- `Uint32 GetSize(DeviceType DevType) const`. -/
def DataHeaderBase.GetSize (h : DataHeaderBase) (DevType : DeviceType) : Nat :=
  h.DeviceSpecificDataSize DevType

/-- `Uint32 GetOffset(DeviceType DevType) const`. -/
def DataHeaderBase.GetOffset (h : DataHeaderBase) (DevType : DeviceType) : Nat :=
  h.DeviceSpecificDataOffset DevType

/-- `Uint32 GetEndOffset(DeviceType DevType) const { return GetOffset(DevType) +
GetSize(DevType); }` — `Uint32` addition wraps modulo `2^32`. -/
def DataHeaderBase.GetEndOffset (h : DataHeaderBase) (DevType : DeviceType) : Nat :=
  (h.GetOffset DevType + h.GetSize DevType) % u32Mod

/-- `void SetSize(DeviceType DevType, Uint32 Size)`. -/
def DataHeaderBase.SetSize (h : DataHeaderBase) (DevType : DeviceType) (Size : Nat) :
    DataHeaderBase :=
  { h with DeviceSpecificDataSize := fun d => if d = DevType then Size else h.DeviceSpecificDataSize d }

/-- `void SetOffset(DeviceType DevType, Uint32 Offset)`. -/
def DataHeaderBase.SetOffset (h : DataHeaderBase) (DevType : DeviceType) (Offset : Nat) :
    DataHeaderBase :=
  { h with DeviceSpecificDataOffset := fun d => if d = DevType then Offset else h.DeviceSpecificDataOffset d }

/-- Numeric fields of a data header fit in `Uint32`. -/
def DataHeaderBase.WF (h : DataHeaderBase) : Prop :=
  ∀ d : DeviceType, h.GetSize d < u32Mod ∧ h.GetOffset d < u32Mod

/-- `struct ArchiveHeader`: magic, version, the six block base offsets
(`TBlockBaseOffsets = std::array<Uint32, 6>`, modelled as a length-6 list in
`BlockOffsetType` order), chunk count, padding. -/
structure ArchiveHeader where
  MagicNumber : Nat
  Version : Nat
  BlockBaseOffsets : List Nat
  NumChunks : Nat
  deriving DecidableEq, Repr

/-- `struct ChunkHeader`: chunk type, size, offset to a
`NamedResourceArrayHeader`, padding. -/
structure ChunkHeader where
  Type' : ChunkType
  Size : Nat
  Offset : Nat
  deriving DecidableEq, Repr

/-- `struct NamedResourceArrayHeader`: a count plus padding. -/
structure NamedResourceArrayHeader where
  Count : Nat
  deriving DecidableEq, Repr

/-- The value the source writes into `_Padding` fields (`~0u`). -/
def padValue : Nat := 4294967295

/-- On-disk byte image of `ArchiveHeader` (fields in declaration order,
little-endian). -/
def encodeArchiveHeader (h : ArchiveHeader) : List Nat :=
  encU32 h.MagicNumber ++ encU32 h.Version ++ h.BlockBaseOffsets.flatMap encU32 ++
    encU32 h.NumChunks ++ encU32 padValue

/-- On-disk byte image of `ChunkHeader`. -/
def encodeChunkHeader (h : ChunkHeader) : List Nat :=
  encU32 h.Type'.toU32 ++ encU32 h.Size ++ encU32 h.Offset ++ encU32 padValue

/-- On-disk byte image of `NamedResourceArrayHeader`. -/
def encodeNamedResourceArrayHeader (h : NamedResourceArrayHeader) : List Nat :=
  encU32 h.Count ++ encU32 padValue

/-- On-disk byte image of `DataHeaderBase`: type tag, padding, the six sizes,
the six offsets. -/
def encodeDataHeaderBase (h : DataHeaderBase) : List Nat :=
  encU32 h.Type'.toU32 ++ encU32 padValue ++
    (DeviceType.all.map h.DeviceSpecificDataSize).flatMap encU32 ++
    (DeviceType.all.map h.DeviceSpecificDataOffset).flatMap encU32

/-- `struct PRSDataHeader : DataHeaderBase` adds no fields. -/
abbrev PRSDataHeader := DataHeaderBase

/-- `struct PSODataHeader : DataHeaderBase` adds no fields. -/
abbrev PSODataHeader := DataHeaderBase

/-- `struct ShadersDataHeader : DataHeaderBase` adds no fields. -/
abbrev ShadersDataHeader := DataHeaderBase

/-- On-disk byte image of `PRSDataHeader` (layout of the base, no extras). -/
def encodePRSDataHeader (h : PRSDataHeader) : List Nat := encodeDataHeaderBase h

/-- On-disk byte image of `PSODataHeader`. -/
def encodePSODataHeader (h : PSODataHeader) : List Nat := encodeDataHeaderBase h

/-- On-disk byte image of `ShadersDataHeader`. -/
def encodeShadersDataHeader (h : ShadersDataHeader) : List Nat := encodeDataHeaderBase h

/-- `struct RPDataHeader`: a chunk-type tag plus padding, no per-device
payload. -/
structure RPDataHeader where
  Type' : ChunkType
  deriving DecidableEq, Repr

/-- On-disk byte image of `RPDataHeader`. -/
def encodeRPDataHeader (h : RPDataHeader) : List Nat :=
  encU32 h.Type'.toU32 ++ encU32 padValue

/-! ## `LoadResourceData`

`DeviceObjectArchive::LoadResourceData` is a template defined in the header
(the one operation whose body is in the sources).  The caller-supplied
`ReourceDataType` bundle (expected chunk type, header type, kind-specific
`Deserialize`) is a parameter, exactly as in the template. -/

/-- `NameToArchiveRegionMap = std::unordered_map<HashMapStringKey,
ArchiveRegion>`, modelled as an association list from name bytes to region
(keys unique). -/
def NameToArchiveRegionMap : Type := List (List Nat × ArchiveRegion)

/-- `NameToRegion.find(ResourceName)`. -/
def findRegion (m : NameToArchiveRegionMap) (name : List Nat) : Option ArchiveRegion :=
  match m with
  | [] => none
  | e :: rest => if e.1 = name then some e.2 else findRegion rest name

/-- `Serializer<SerializerMode::Read>`: a byte buffer and a cursor. -/
structure SerializerReadState where
  data : List Nat
  pos : Nat
  deriving DecidableEq, Repr

/-- `Serializer::IsEnded()`: the cursor has consumed the whole buffer. -/
def SerializerReadState.IsEnded (s : SerializerReadState) : Bool :=
  s.pos == s.data.length

/-- The caller-supplied `ReourceDataType` template parameter of
`LoadResourceData`: expected chunk type, the header type `H` with its size,
the `Ser.Cast<HeaderType>()` reinterpretation of the leading bytes, the
header's embedded `Type` tag, and the kind-specific `Deserialize` member. -/
structure ReourceDataType (H : Type) where
  ExpectedChunkType : ChunkType
  HeaderSize : Nat
  CastHeader : List Nat → H
  HeaderType : H → ChunkType
  Deserialize : List Nat → SerializerReadState → Bool × SerializerReadState

/-- Outcome of `LoadResourceData`.  The C++ returns `bool`; the four `return
false` sites are distinguished here by which check failed, and the debug
assertion `VERIFY_EXPR(Ser.IsEnded())` after `Deserialize` is modelled as the
distinguished outcome `assertionFailed`. -/
inductive LoadResult (H : Type) where
  | notFound
  | readFailed
  | corruptData
  | assertionFailed
  | deserializeFailed
  | ok (header : H)
  deriving DecidableEq

/-- `DeviceObjectArchive::LoadResourceData` (header template, lines 380–417):
look the name up in the region map (miss → failure); read `Region.Size` bytes
at `Region.Offset` from the archive (`read` is the `IArchive::Read`
collaborator); cast the leading bytes to the header type; compare the
header's `Type` tag with the expected chunk type (mismatch → failure);
delegate to the kind-specific `Deserialize` and check
`VERIFY_EXPR(Ser.IsEnded())`. -/
def LoadResourceData {H : Type} (read : Nat → Nat → Option (List Nat))
    (NameToRegion : NameToArchiveRegionMap) (ResourceName : List Nat)
    (ResData : ReourceDataType H) : LoadResult H :=
  match findRegion NameToRegion ResourceName with
  | none => .notFound
  | some Region =>
    match read Region.Offset Region.Size with
    | none => .readFailed
    | some pData =>
      if ResData.HeaderSize ≤ pData.length then
        let pHeader := ResData.CastHeader (pData.take ResData.HeaderSize)
        let Ser : SerializerReadState := ⟨pData, ResData.HeaderSize⟩
        if ResData.HeaderType pHeader ≠ ResData.ExpectedChunkType then
          .corruptData
        else
          let Res := ResData.Deserialize ResourceName Ser
          if (Res.2).IsEnded then
            if Res.1 then .ok pHeader else .deserializeFailed
          else .assertionFailed
      else .assertionFailed

/-! ## Device-specific payload resolution and structural edits

The bodies of the constructor, `GetDeviceSpecificData`, `RemoveDeviceData`
and `Serialize` are not part of the sources (the header only declares them);
they are modelled from the specification document. -/

/-- The error kinds of the specification's error-handling design. -/
inductive ArchiveError where
  | formatError
  | corruptData
  | notFound
  | ioFailure
  deriving DecidableEq, Repr

/-- Index of a `BlockOffsetType` into `TBlockBaseOffsets`
(`static_cast<size_t>(Type)`). -/
def blockOffsetIndex : BlockOffsetType → Nat
  | .OpenGL => 0
  | .Direct3D11 => 1
  | .Direct3D12 => 2
  | .Vulkan => 3
  | .Metal_MacOS => 4
  | .Metal_iOS => 5

/-- `Uint32 GetBaseOffset(BlockOffsetType Type) const { return
m_BaseOffsets[static_cast<size_t>(Type)]; }`. -/
def GetBaseOffset (BaseOffsets : List Nat) (T : BlockOffsetType) : Nat :=
  BaseOffsets.getD (blockOffsetIndex T) 0

/-- Modelled from the spec: the body of
`DeviceObjectArchive::GetDeviceSpecificData(DevType, Header, Allocator,
ExpectedChunkType)` is not in the sources.  Per the spec it reads
`Header.GetSize(DevType)` bytes at
`GetBaseOffset(GetBlockOffsetType(DevType)) + Header.GetOffset(DevType)` and
returns an empty result (not an error) when the stored offset is the sentinel
`InvalidOffset`.  `read` is the thread-safe `IArchive::Read` collaborator; the
allocator and the expected chunk type do not affect the returned bytes. -/
def GetDeviceSpecificData (read : Nat → Nat → Option (List Nat))
    (BaseOffsets : List Nat) (DevType : DeviceType) (Header : DataHeaderBase) :
    Except ArchiveError (List Nat) :=
  if Header.GetOffset DevType = InvalidOffset then
    .ok []
  else
    match read (GetBaseOffset BaseOffsets (GetBlockOffsetType DevType) + Header.GetOffset DevType)
        (Header.GetSize DevType) with
    | some bytes => .ok bytes
    | none => .error .ioFailure

/-- The mutable members of `DeviceObjectArchive` that the structural editor
touches: the base-offset table, every resource-kind data header, and the raw
device-specific byte stream (which edits never compact). -/
structure EditState where
  BaseOffsets : List Nat
  Headers : List DataHeaderBase
  DeviceBytes : List Nat

/-- Modelled from the spec: the body of
`DeviceObjectArchive::RemoveDeviceData(Dev)` is not in the sources.  Per the
spec it clears, in every resource-kind data header, the size/offset entry of
`Dev` to the sentinel, and does not physically compact the byte stream. -/
def RemoveDeviceData (Dev : DeviceType) (st : EditState) : EditState :=
  { st with Headers := st.Headers.map fun h => (h.SetSize Dev 0).SetOffset Dev InvalidOffset }

/-! ## The parser and the serializer

The constructor `DeviceObjectArchive(IArchive*)` (the parser) and
`Serialize` are declared in the header but their bodies are not in the
sources; both are modelled from the specification document (§4.1, §4.5, §6:
header layout, chunk walk, named-resource arrays, round-trip layout). -/

/-- `decU32` at a byte position of a buffer. -/
def decU32At (l : List Nat) (pos : Nat) : Nat := decU32 (l.drop pos)

/-- Read `n` little-endian `Uint32` values starting at `pos`. -/
def readU32List (bs : List Nat) (pos : Nat) : Nat → Option (List Nat)
  | 0 => some []
  | n + 1 =>
    match readU32 bs pos, readU32List bs (pos + 4) n with
    | some x, some rest => some (x :: rest)
    | _, _ => none

/-- Read consecutive names out of the trailing name blob, using the parallel
length array. -/
def readNames (bs : List Nat) (pos : Nat) : List Nat → Option (List (List Nat))
  | [] => some []
  | len :: rest =>
    match readBytes bs pos len, readNames bs (pos + len) rest with
    | some nm, some nms => some (nm :: nms)
    | _, _ => none

/-- Chunk kinds that carry a `NamedResourceArray` of per-name regions. -/
def ChunkType.isNamedKind : ChunkType → Bool
  | .ResourceSignature => true
  | .GraphicsPipelineStates => true
  | .ComputePipelineStates => true
  | .RayTracingPipelineStates => true
  | .TilePipelineStates => true
  | .RenderPass => true
  | _ => false

/-- Chunk kinds whose payload the index keeps as raw bytes (debug info; the
shaders chunk holds a single `ShadersDataHeader`, no per-name list). -/
def ChunkType.isRawKind : ChunkType → Bool
  | .ArchiveDebugInfo => true
  | .Shaders => true
  | _ => false

/-- The in-memory content built from one chunk: either the decoded
named-resource entries (name, region) in file order, or the raw payload. -/
inductive ChunkContent where
  | named (kind : ChunkType) (entries : List (List Nat × ArchiveRegion))
  | raw (kind : ChunkType) (payload : List Nat)
  deriving DecidableEq

/-- The chunk kind of a `ChunkContent`. -/
def ChunkContent.kind : ChunkContent → ChunkType
  | .named k _ => k
  | .raw k _ => k

/-- The in-memory index a successful parse produces: base offsets plus the
per-chunk contents (from which the per-kind name-to-region maps derive). -/
structure ParsedArchive where
  BaseOffsets : List Nat
  Chunks : List ChunkContent
  deriving DecidableEq

/-- The per-kind name-to-region map of a parsed archive (empty when no chunk
of that kind is present). -/
def ParsedArchive.ResMap (st : ParsedArchive) (kind : ChunkType) : NameToArchiveRegionMap :=
  match st.Chunks.find? (fun c => decide (c.kind = kind)) with
  | some (.named _ es) => es
  | _ => []

/-- Modelled from the spec: read and validate the `ArchiveHeader` (magic,
version) from the leading 40 bytes; mismatch is a hard `FormatError`. -/
def parseHeader (bs : List Nat) : Except ArchiveError ArchiveHeader :=
  match readBytes bs 0 40 with
  | none => .error .ioFailure
  | some hb =>
    if decU32At hb 0 ≠ HeaderMagicNumber then .error .formatError
    else if decU32At hb 4 ≠ HeaderVersion then .error .formatError
    else .ok ⟨decU32At hb 0, decU32At hb 4,
      [decU32At hb 8, decU32At hb 12, decU32At hb 16, decU32At hb 20,
        decU32At hb 24, decU32At hb 28],
      decU32At hb 32⟩

/-- Modelled from the spec: read `NumChunks` `ChunkHeader`s immediately
following the archive header; an unknown chunk-type value is a structural
violation. -/
def parseChunkHeaders (bs : List Nat) (pos : Nat) : Nat → Except ArchiveError (List ChunkHeader)
  | 0 => .ok []
  | n + 1 =>
    match readBytes bs pos 16 with
    | none => .error .ioFailure
    | some cb =>
      match ChunkType.ofU32 (decU32At cb 0) with
      | none => .error .formatError
      | some ty =>
        match parseChunkHeaders bs (pos + 16) n with
        | .ok rest => .ok (⟨ty, decU32At cb 4, decU32At cb 8⟩ :: rest)
        | .error e => .error e

/-- Modelled from the spec: decode a `NamedResourceArray` at byte position
`pos`: the count, the parallel `NameLength`/`DataSize`/`DataOffset` arrays,
then the name blob; each entry yields `(name, ArchiveRegion{offset, size})`. -/
def parseNamedArray (bs : List Nat) (pos : Nat) : Option (List (List Nat × ArchiveRegion)) :=
  match readU32 bs pos with
  | none => none
  | some count =>
    match readU32List bs (pos + 8) count, readU32List bs (pos + 8 + 4 * count) count,
        readU32List bs (pos + 8 + 8 * count) count with
    | some lens, some sizes, some offs =>
      match readNames bs (pos + 8 + 12 * count) lens with
      | some names => some (List.zip names (List.zipWith ArchiveRegion.mk offs sizes))
      | none => none
    | _, _, _ => none

/-- Modelled from the spec: build the content of one chunk — named kinds
decode their `NamedResourceArray` at `Offset`; raw kinds keep `Size` bytes at
`Offset`; other kinds are a structural violation. -/
def parseChunkContent (bs : List Nat) (ch : ChunkHeader) : Except ArchiveError ChunkContent :=
  if ch.Type'.isNamedKind then
    match parseNamedArray bs ch.Offset with
    | some entries => .ok (.named ch.Type' entries)
    | none => .error .ioFailure
  else if ch.Type'.isRawKind then
    match readBytes bs ch.Offset ch.Size with
    | some payload => .ok (.raw ch.Type' payload)
    | none => .error .ioFailure
  else .error .formatError

/-- Walk the chunk list in file order, building each chunk's content. -/
def parseChunkContents (bs : List Nat) : List ChunkHeader → Except ArchiveError (List ChunkContent)
  | [] => .ok []
  | ch :: rest =>
    match parseChunkContent bs ch with
    | .error e => .error e
    | .ok c =>
      match parseChunkContents bs rest with
      | .error e => .error e
      | .ok cs => .ok (c :: cs)

/-- Modelled from the spec: the whole parse performed by the constructor
`DeviceObjectArchive(IArchive*)` — validate the header, read the chunk
table, enforce "at most one chunk per kind", and build every chunk's
content.  Any structural violation fails the whole construction; the
returned `Except` carries either the complete index or an error, never a
partial object. -/
def Parse (bs : List Nat) : Except ArchiveError ParsedArchive :=
  match parseHeader bs with
  | .error e => .error e
  | .ok hdr =>
    match parseChunkHeaders bs 40 hdr.NumChunks with
    | .error e => .error e
    | .ok chs =>
      if (chs.map ChunkHeader.Type').Nodup then
        match parseChunkContents bs chs with
        | .error e => .error e
        | .ok cs => .ok ⟨hdr.BlockBaseOffsets, cs⟩
      else .error .formatError

/-- On-disk byte image of one chunk's payload. -/
def chunkPayloadBytes : ChunkContent → List Nat
  | .named _ entries =>
    encU32 entries.length ++ encU32 padValue ++
      (entries.map fun e => e.1.length).flatMap encU32 ++
      (entries.map fun e => e.2.Size).flatMap encU32 ++
      (entries.map fun e => e.2.Offset).flatMap encU32 ++
      (entries.map fun e => e.1).flatten
  | .raw _ payload => payload

/-- Zero-padding needed to align `n` up to `DataPtrAlign = 8` bytes. -/
def pad8 (n : Nat) : Nat := (8 - n % 8) % 8

/-- Lay chunk payloads out one after another (8-byte aligned) starting at
`pos`, producing for each chunk its recomputed `ChunkHeader` and its padded
payload bytes. -/
def layoutChunks (pos : Nat) : List ChunkContent → List (ChunkHeader × List Nat)
  | [] => []
  | c :: rest =>
    let pl := chunkPayloadBytes c
    let padded := pl ++ List.replicate (pad8 pl.length) 0
    (⟨c.kind, pl.length, pos⟩, padded) :: layoutChunks (pos + padded.length) rest

/-- Modelled from the spec: `DeviceObjectArchive::Serialize` — recompute all
chunk offsets and name-array layouts and emit one linear byte stream: the
archive header (base offsets preserved), the chunk table, then each chunk's
payload at its recomputed offset. -/
def Serialize (st : ParsedArchive) : List Nat :=
  encodeArchiveHeader ⟨HeaderMagicNumber, HeaderVersion, st.BaseOffsets, st.Chunks.length⟩ ++
    (((layoutChunks (40 + 16 * st.Chunks.length) st.Chunks).map
        fun tc => encodeChunkHeader tc.1).flatten ++
      ((layoutChunks (40 + 16 * st.Chunks.length) st.Chunks).map fun tc => tc.2).flatten)

/-- Well-formedness of one named-resource entry: all numeric fields fit in
`Uint32`. -/
def entryWF (e : List Nat × ArchiveRegion) : Prop :=
  e.1.length < u32Mod ∧ e.2.Offset < u32Mod ∧ e.2.Size < u32Mod

/-- Well-formedness of a chunk content: the kind matches the representation
and all numeric fields fit in `Uint32`. -/
def ChunkContent.WF : ChunkContent → Prop
  | .named k es => k.isNamedKind = true ∧ es.length < u32Mod ∧ ∀ e ∈ es, entryWF e
  | .raw k pl => k.isRawKind = true ∧ pl.length < u32Mod

/-- Well-formedness of a parsed archive (every successful parse produces
this): six `Uint32` base offsets, a `Uint32` chunk count, at most one chunk
per kind, well-formed chunk contents. -/
def ParsedArchive.WF (st : ParsedArchive) : Prop :=
  st.BaseOffsets.length = 6 ∧ (∀ b ∈ st.BaseOffsets, b < u32Mod) ∧
    st.Chunks.length < u32Mod ∧ (st.Chunks.map ChunkContent.kind).Nodup ∧
    ∀ c ∈ st.Chunks, c.WF

/-- The serialized image is addressable by `Uint32` offsets (a validity
condition of the format: all stored offsets are 32-bit). -/
def SerializeFits (st : ParsedArchive) : Prop :=
  (Serialize st).length < u32Mod

/-- A trivial `ReourceDataType` bundle used only by concrete witnesses. -/
def trivialResData : ReourceDataType Unit where
  ExpectedChunkType := .ResourceSignature
  HeaderSize := 0
  CastHeader := fun _ => ()
  HeaderType := fun _ => .ResourceSignature
  Deserialize := fun _ s => (true, { s with pos := s.data.length })

/-! ## Byte-stream primitive lemmas -/

theorem decU32_encU32 (x : Nat) (rest : List Nat) :
    decU32 (encU32 x ++ rest) = x % u32Mod := by
  simp only [encU32, decU32, List.cons_append, u32Mod]
  omega

theorem decU32_encU32_self (x : Nat) : decU32 (encU32 x) = x % u32Mod := by
  have := decU32_encU32 x []
  simpa using this

theorem decU32_lt (l : List Nat) : decU32 l < u32Mod := by
  match l with
  | [] => simp only [decU32, u32Mod]; omega
  | [_] => simp only [decU32, u32Mod]; omega
  | [_, _] => simp only [decU32, u32Mod]; omega
  | [_, _, _] => simp only [decU32, u32Mod]; omega
  | b0 :: b1 :: b2 :: b3 :: _ => simp only [decU32, u32Mod]; omega

/-- Reading at an offset past a prefix is reading in the suffix. -/
theorem readBytes_shift (pre rest : List Nat) (k n : Nat) :
    readBytes (pre ++ rest) (pre.length + k) n = readBytes rest k n := by
  unfold readBytes
  rw [List.drop_append]
  simp only [List.length_append]
  have h : (pre.length + k + n ≤ pre.length + rest.length) ↔ (k + n ≤ rest.length) := by omega
  rw [if_congr h (Eq.refl _) (Eq.refl _)]

theorem readBytes_shift0 (pre rest : List Nat) (n : Nat) :
    readBytes (pre ++ rest) pre.length n = readBytes rest 0 n := by
  have := readBytes_shift pre rest 0 n
  simpa using this

theorem readU32_shift (pre rest : List Nat) (k : Nat) :
    readU32 (pre ++ rest) (pre.length + k) = readU32 rest k := by
  unfold readU32
  rw [readBytes_shift]

theorem readBytes_prefix (seg post : List Nat) :
    readBytes (seg ++ post) 0 seg.length = some seg := by
  unfold readBytes
  rw [if_pos]
  · rw [List.drop_zero, List.take_left]
  · simp only [List.length_append]
    omega

theorem readBytes_length (bs : List Nat) (pos n : Nat) (l : List Nat)
    (h : readBytes bs pos n = some l) : l.length = n := by
  unfold readBytes at h
  split at h
  · cases h
    rename_i hle
    rw [List.length_take, List.length_drop]
    omega
  · cases h

theorem readU32_encU32 (x : Nat) (pre post : List Nat) :
    readU32 (pre ++ (encU32 x ++ post)) pre.length = some (x % u32Mod) := by
  unfold readU32
  rw [readBytes_shift0]
  rw [show (4 : Nat) = (encU32 x).length from rfl, readBytes_prefix]
  simp [decU32_encU32_self]

theorem decU32At_append_encU32 (pre post : List Nat) (x : Nat) :
    decU32At (pre ++ (encU32 x ++ post)) pre.length = x % u32Mod := by
  unfold decU32At
  rw [List.drop_left, decU32_encU32]

theorem flatMap_encU32_length (l : List Nat) : (l.flatMap encU32).length = 4 * l.length := by
  induction l with
  | nil => rfl
  | cons x xs ih =>
    simp only [List.flatMap_cons, List.length_append, ih, encU32, List.length_cons,
      List.length_nil]
    omega

/-! ## C8: fixed header struct sizes -/

/-- C8: every fixed on-disk header struct has exactly its declared byte size
and that size is a multiple of 8: `ArchiveHeader` 40 bytes, `ChunkHeader` 16,
`NamedResourceArrayHeader` 8, `DataHeaderBase` and its specializations
`PRSDataHeader`/`PSODataHeader`/`ShadersDataHeader` 56 each, `RPDataHeader`
8. -/
theorem header_struct_sizes :
    (∀ h : ArchiveHeader, h.BlockBaseOffsets.length = 6 →
      (encodeArchiveHeader h).length = 40) ∧
    (∀ h : ChunkHeader, (encodeChunkHeader h).length = 16) ∧
    (∀ h : NamedResourceArrayHeader, (encodeNamedResourceArrayHeader h).length = 8) ∧
    (∀ h : DataHeaderBase, (encodeDataHeaderBase h).length = 56) ∧
    (∀ h : PRSDataHeader, (encodePRSDataHeader h).length = 56) ∧
    (∀ h : PSODataHeader, (encodePSODataHeader h).length = 56) ∧
    (∀ h : ShadersDataHeader, (encodeShadersDataHeader h).length = 56) ∧
    (∀ h : RPDataHeader, (encodeRPDataHeader h).length = 8) ∧
    40 % 8 = 0 ∧ 16 % 8 = 0 ∧ 8 % 8 = 0 ∧ 56 % 8 = 0 := by
  refine ⟨?_, fun _ => rfl, fun _ => rfl, fun _ => rfl, fun _ => rfl, fun _ => rfl,
    fun _ => rfl, fun _ => rfl, rfl, rfl, rfl, rfl⟩
  intro h hlen
  simp only [encodeArchiveHeader, List.length_append, flatMap_encU32_length, hlen, encU32,
    List.length_cons, List.length_nil]

/-- Witness for C8 at a concrete `ArchiveHeader` (the declared magic and
version, six zero base offsets, no chunks). -/
theorem header_struct_sizes_witness :
    (encodeArchiveHeader ⟨HeaderMagicNumber, HeaderVersion, [0, 0, 0, 0, 0, 0], 0⟩).length = 40 :=
  header_struct_sizes.1 ⟨HeaderMagicNumber, HeaderVersion, [0, 0, 0, 0, 0, 0], 0⟩ rfl

/-! ## C10: `GetEndOffset` wraps in `Uint32` arithmetic -/

/-- C10: `GetEndOffset` returns `GetOffset + GetSize` computed modulo `2^32`;
when the offset is the sentinel `0xFFFFFFFF`, it wraps around and returns
`GetSize - 1` (mod `2^32`; in particular exactly `GetSize - 1` whenever the
size is positive) rather than a value past the sentinel. -/
theorem GetEndOffset_sentinel_wraps (h : DataHeaderBase) (d : DeviceType)
    (hsz : h.GetSize d < u32Mod) (hoff : h.GetOffset d = InvalidOffset) :
    h.GetEndOffset d = (h.GetSize d + (u32Mod - 1)) % u32Mod ∧
      (0 < h.GetSize d → h.GetEndOffset d = h.GetSize d - 1) := by
  unfold DataHeaderBase.GetEndOffset
  rw [hoff]
  unfold InvalidOffset u32Mod at *
  constructor
  · omega
  · intro hpos
    omega

/-- Witness for C10: a header whose Vulkan slot is absent (sentinel offset)
with stored size 50 has end offset 49. -/
theorem GetEndOffset_sentinel_wraps_witness :
    (DataHeaderBase.mk ChunkType.ResourceSignature (fun _ => 50)
        (fun _ => InvalidOffset)).GetEndOffset DeviceType.Vulkan = 49 := by
  have h := GetEndOffset_sentinel_wraps
    (DataHeaderBase.mk ChunkType.ResourceSignature (fun _ => 50) (fun _ => InvalidOffset))
    DeviceType.Vulkan (by decide) rfl
  exact h.2 (by decide)

/-! ## C2: `GetDeviceSpecificData` — sentinel means empty, else an exact
region read -/

/-- C2: when the stored offset for the device type is the sentinel,
`GetDeviceSpecificData` returns the empty result and no error; otherwise it
returns exactly `Header.GetSize(DevType)` bytes of the archive read at
`GetBaseOffset(GetBlockOffsetType(DevType)) + Header.GetOffset(DevType)`. -/
theorem GetDeviceSpecificData_spec (bs : List Nat) (BaseOffsets : List Nat)
    (DevType : DeviceType) (Header : DataHeaderBase) :
    (Header.GetOffset DevType = InvalidOffset →
      GetDeviceSpecificData (readBytes bs) BaseOffsets DevType Header = .ok []) ∧
    (∀ bytes : List Nat, Header.GetOffset DevType ≠ InvalidOffset →
      readBytes bs (GetBaseOffset BaseOffsets (GetBlockOffsetType DevType) +
          Header.GetOffset DevType) (Header.GetSize DevType) = some bytes →
      GetDeviceSpecificData (readBytes bs) BaseOffsets DevType Header = .ok bytes ∧
        bytes.length = Header.GetSize DevType ∧
        bytes = (bs.drop (GetBaseOffset BaseOffsets (GetBlockOffsetType DevType) +
          Header.GetOffset DevType)).take (Header.GetSize DevType)) := by
  constructor
  · intro hoff
    unfold GetDeviceSpecificData
    rw [if_pos hoff]
  · intro bytes hoff hread
    refine ⟨?_, readBytes_length _ _ _ _ hread, ?_⟩
    · unfold GetDeviceSpecificData
      rw [if_neg hoff, hread]
    · unfold readBytes at hread
      split at hread
      · cases hread
        rfl
      · cases hread

/-- Witness for C2: a six-byte archive, zero base offsets; a header whose
Vulkan slot is absent yields the empty result, and one whose Vulkan slot is
(offset 2, size 3) yields bytes 12, 13, 14. -/
theorem GetDeviceSpecificData_spec_witness :
    GetDeviceSpecificData (readBytes [10, 11, 12, 13, 14, 15]) [0, 0, 0, 0, 0, 0]
        DeviceType.Vulkan
        (DataHeaderBase.mk ChunkType.ResourceSignature (fun _ => 3) (fun _ => InvalidOffset)) =
      .ok [] ∧
    GetDeviceSpecificData (readBytes [10, 11, 12, 13, 14, 15]) [0, 0, 0, 0, 0, 0]
        DeviceType.Vulkan
        (DataHeaderBase.mk ChunkType.ResourceSignature (fun _ => 3) (fun _ => 2)) =
      .ok [12, 13, 14] := by
  constructor
  · exact (GetDeviceSpecificData_spec [10, 11, 12, 13, 14, 15] [0, 0, 0, 0, 0, 0]
      DeviceType.Vulkan ⟨ChunkType.ResourceSignature, fun _ => 3, fun _ => InvalidOffset⟩).1 rfl
  · exact ((GetDeviceSpecificData_spec [10, 11, 12, 13, 14, 15] [0, 0, 0, 0, 0, 0]
      DeviceType.Vulkan ⟨ChunkType.ResourceSignature, fun _ => 3, fun _ => 2⟩).2
      [12, 13, 14] (by decide) (by decide)).1

/-! ## C7: `RemoveDeviceData` clears one device's slots and nothing else -/

/-- C7: after `RemoveDeviceData Dev`, every data header's offset for `Dev` is
the sentinel and every `GetDeviceSpecificData` call for `Dev` returns empty,
while the device byte stream is not compacted (bytes unchanged), the base
offsets are unchanged, and every header's entries for device types other than
`Dev` (and its type tag) are unchanged. -/
theorem RemoveDeviceData_spec (Dev : DeviceType) (st : EditState) :
    (∀ h ∈ (RemoveDeviceData Dev st).Headers, h.GetOffset Dev = InvalidOffset) ∧
    (∀ h ∈ (RemoveDeviceData Dev st).Headers, ∀ read : Nat → Nat → Option (List Nat),
      GetDeviceSpecificData read (RemoveDeviceData Dev st).BaseOffsets Dev h = .ok []) ∧
    (RemoveDeviceData Dev st).DeviceBytes = st.DeviceBytes ∧
    (RemoveDeviceData Dev st).BaseOffsets = st.BaseOffsets ∧
    (RemoveDeviceData Dev st).Headers.map DataHeaderBase.Type' =
      st.Headers.map DataHeaderBase.Type' ∧
    (∀ d : DeviceType, d ≠ Dev →
      (RemoveDeviceData Dev st).Headers.map (fun h => h.GetOffset d) =
        st.Headers.map (fun h => h.GetOffset d) ∧
      (RemoveDeviceData Dev st).Headers.map (fun h => h.GetSize d) =
        st.Headers.map (fun h => h.GetSize d)) := by
  have hcleared : ∀ h ∈ (RemoveDeviceData Dev st).Headers, h.GetOffset Dev = InvalidOffset := by
    intro h hmem
    unfold RemoveDeviceData at hmem
    simp only [List.mem_map] at hmem
    obtain ⟨h₀, _, rfl⟩ := hmem
    simp [DataHeaderBase.GetOffset, DataHeaderBase.SetOffset, DataHeaderBase.SetSize]
  refine ⟨hcleared, ?_, rfl, rfl, ?_, ?_⟩
  · intro h hmem read
    unfold GetDeviceSpecificData
    rw [if_pos (hcleared h hmem)]
  · unfold RemoveDeviceData
    simp [DataHeaderBase.SetOffset, DataHeaderBase.SetSize]
  · intro d hd
    unfold RemoveDeviceData
    constructor
    · simp only [List.map_map]
      refine List.map_congr_left ?_
      intro h _
      simp [DataHeaderBase.GetOffset, DataHeaderBase.SetOffset, DataHeaderBase.SetSize,
        Function.comp, if_neg hd]
    · simp only [List.map_map]
      refine List.map_congr_left ?_
      intro h _
      simp [DataHeaderBase.GetSize, DataHeaderBase.SetOffset, DataHeaderBase.SetSize,
        Function.comp, if_neg hd]

/-- Witness for C7: removing Vulkan data from a one-header state clears the
Vulkan offset to the sentinel but keeps the Direct3D12 offset. -/
theorem RemoveDeviceData_spec_witness :
    (∀ h ∈ (RemoveDeviceData DeviceType.Vulkan
        ⟨[0, 0, 0, 0, 0, 0],
          [DataHeaderBase.mk ChunkType.ResourceSignature (fun _ => 3) (fun _ => 7)],
          [1, 2, 3]⟩).Headers,
      h.GetOffset DeviceType.Vulkan = InvalidOffset) ∧
    (RemoveDeviceData DeviceType.Vulkan
        ⟨[0, 0, 0, 0, 0, 0],
          [DataHeaderBase.mk ChunkType.ResourceSignature (fun _ => 3) (fun _ => 7)],
          [1, 2, 3]⟩).Headers.map (fun h => h.GetOffset DeviceType.Direct3D12) = [7] := by
  constructor
  · exact (RemoveDeviceData_spec DeviceType.Vulkan
      ⟨[0, 0, 0, 0, 0, 0],
        [DataHeaderBase.mk ChunkType.ResourceSignature (fun _ => 3) (fun _ => 7)],
        [1, 2, 3]⟩).1
  · have h := ((RemoveDeviceData_spec DeviceType.Vulkan
      ⟨[0, 0, 0, 0, 0, 0],
        [DataHeaderBase.mk ChunkType.ResourceSignature (fun _ => 3) (fun _ => 7)],
        [1, 2, 3]⟩).2.2.2.2.2 DeviceType.Direct3D12 (by decide)).1
    rw [h]
    rfl

/-! ## C3–C5: `LoadResourceData` -/

/-- C3: when the name is not a key of the region map, `LoadResourceData`
fails with the not-found result and never succeeds; it performs no archive
read (the outcome is the same for every read collaborator), and — being a
`const` member modelled as a pure function of the map — it leaves the
archive's index state unchanged. -/
theorem LoadResourceData_notFound {H : Type} (read : Nat → Nat → Option (List Nat))
    (m : NameToArchiveRegionMap) (name : List Nat) (rd : ReourceDataType H)
    (hmiss : findRegion m name = none) :
    LoadResourceData read m name rd = .notFound ∧
      (∀ read' : Nat → Nat → Option (List Nat),
        LoadResourceData read m name rd = LoadResourceData read' m name rd) := by
  constructor
  · unfold LoadResourceData
    rw [hmiss]
  · intro read'
    unfold LoadResourceData
    rw [hmiss]

/-- Witness for C3: looking up a name in the empty region map fails with the
not-found result. -/
theorem LoadResourceData_notFound_witness :
    LoadResourceData (fun _ _ => none) [] [65] trivialResData = .notFound :=
  (LoadResourceData_notFound (fun _ _ => none) [] [65] trivialResData rfl).1

/-- C4: when the stored data header carries a `Type` tag different from the
caller's expected chunk kind, `LoadResourceData` fails with the corrupt-data
result (after the tag comparison); and because the shared index is untouched
(the map is passed by `const` reference and the model is pure in it), any
sibling resource whose header tag matches and whose deserializer succeeds
consuming the whole region still decodes through the very same map. -/
theorem LoadResourceData_corruptData {H : Type} (read : Nat → Nat → Option (List Nat))
    (m : NameToArchiveRegionMap) (name : List Nat) (rd : ReourceDataType H)
    (Region : ArchiveRegion) (pData : List Nat)
    (hfind : findRegion m name = some Region)
    (hread : read Region.Offset Region.Size = some pData)
    (hsz : rd.HeaderSize ≤ pData.length)
    (hmismatch : rd.HeaderType (rd.CastHeader (pData.take rd.HeaderSize)) ≠
      rd.ExpectedChunkType) :
    LoadResourceData read m name rd = .corruptData ∧
      (∀ {H₂ : Type} (rd₂ : ReourceDataType H₂) (name₂ : List Nat)
        (Region₂ : ArchiveRegion) (pData₂ : List Nat),
        findRegion m name₂ = some Region₂ →
        read Region₂.Offset Region₂.Size = some pData₂ →
        rd₂.HeaderSize ≤ pData₂.length →
        rd₂.HeaderType (rd₂.CastHeader (pData₂.take rd₂.HeaderSize)) = rd₂.ExpectedChunkType →
        (rd₂.Deserialize name₂ ⟨pData₂, rd₂.HeaderSize⟩).2.IsEnded = true →
        (rd₂.Deserialize name₂ ⟨pData₂, rd₂.HeaderSize⟩).1 = true →
        LoadResourceData read m name₂ rd₂ =
          .ok (rd₂.CastHeader (pData₂.take rd₂.HeaderSize))) := by
  constructor
  · unfold LoadResourceData
    simp only [hfind, hread]
    rw [if_pos hsz, if_pos hmismatch]
  · intro H₂ rd₂ name₂ Region₂ pData₂ hfind₂ hread₂ hsz₂ hmatch₂ hend₂ hres₂
    unfold LoadResourceData
    simp only [hfind₂, hread₂]
    rw [if_pos hsz₂]
    simp only [ne_eq, hmatch₂, not_true_eq_false, if_false, hend₂, if_true, hres₂]

/-- Witness for C4: a one-entry map whose stored header tag is `RenderPass`
while the caller expects `ResourceSignature` fails with the corrupt-data
result. -/
theorem LoadResourceData_corruptData_witness :
    LoadResourceData (fun _ n => some (List.replicate n 7)) [([65], ⟨0, 4⟩)] [65]
      { ExpectedChunkType := .ResourceSignature
        HeaderSize := 4
        CastHeader := fun _ => ()
        HeaderType := fun _ => .RenderPass
        Deserialize := fun _ s => (true, s) } = .corruptData :=
  (LoadResourceData_corruptData (fun _ n => some (List.replicate n 7)) [([65], ⟨0, 4⟩)] [65]
    { ExpectedChunkType := .ResourceSignature
      HeaderSize := 4
      CastHeader := fun _ => ()
      HeaderType := fun _ => .RenderPass
      Deserialize := fun _ s => (true, s) } ⟨0, 4⟩ (List.replicate 4 7) rfl rfl (by decide)
    (by decide)).1

/-- C5: whenever `LoadResourceData` reports success, the kind-specific
deserializer has consumed the buffer exactly: its final cursor equals the
full region size (`VERIFY_EXPR(Ser.IsEnded())` — the checked contract), so
success is never reported with trailing unconsumed bytes. -/
theorem LoadResourceData_consumes_exactly {H : Type} (read : Nat → Nat → Option (List Nat))
    (m : NameToArchiveRegionMap) (name : List Nat) (rd : ReourceDataType H)
    (Region : ArchiveRegion) (pData : List Nat) (hdr : H)
    (hfind : findRegion m name = some Region)
    (hread : read Region.Offset Region.Size = some pData)
    (hok : LoadResourceData read m name rd = .ok hdr) :
    (rd.Deserialize name ⟨pData, rd.HeaderSize⟩).2.IsEnded = true ∧
      (rd.Deserialize name ⟨pData, rd.HeaderSize⟩).2.pos =
        (rd.Deserialize name ⟨pData, rd.HeaderSize⟩).2.data.length := by
  unfold LoadResourceData at hok
  simp only [hfind, hread] at hok
  by_cases hsz : rd.HeaderSize ≤ pData.length
  · rw [if_pos hsz] at hok
    by_cases hmis : rd.HeaderType (rd.CastHeader (pData.take rd.HeaderSize)) ≠
        rd.ExpectedChunkType
    · rw [if_pos hmis] at hok
      cases hok
    · rw [if_neg hmis] at hok
      by_cases hend : (rd.Deserialize name ⟨pData, rd.HeaderSize⟩).2.IsEnded = true
      · refine ⟨hend, ?_⟩
        unfold SerializerReadState.IsEnded at hend
        simpa using hend
      · rw [if_neg hend] at hok
        cases hok
  · rw [if_neg hsz] at hok
    cases hok

/-- Witness for C5: a successful load through a deserializer that consumes
the rest of the buffer indeed ends with the cursor at the buffer length. -/
theorem LoadResourceData_consumes_exactly_witness :
    (trivialResData.Deserialize [65] ⟨[7, 7, 7, 7], trivialResData.HeaderSize⟩).2.pos =
      (trivialResData.Deserialize [65] ⟨[7, 7, 7, 7], trivialResData.HeaderSize⟩).2.data.length :=
  (LoadResourceData_consumes_exactly (fun _ n => some (List.replicate n 7))
    [([65], ⟨0, 4⟩)] [65] trivialResData ⟨0, 4⟩ (List.replicate 4 7) () rfl rfl (by decide)).2

/-! ## C6: bad magic or version is a hard `FormatError` -/

/-- C6: constructing an archive from bytes whose header magic number differs
from `0xDE00000A` (in any bit) or whose version differs from 2 fails as a
whole with a `FormatError`; no partially-constructed archive is observable
(the parse result is an error, not a state). -/
theorem Parse_bad_magic_formatError (bs hb : List Nat)
    (hhb : readBytes bs 0 40 = some hb)
    (hbad : decU32At hb 0 ≠ HeaderMagicNumber ∨ decU32At hb 4 ≠ HeaderVersion) :
    Parse bs = .error .formatError ∧ ∀ st : ParsedArchive, Parse bs ≠ .ok st := by
  have hph : parseHeader bs = .error .formatError := by
    unfold parseHeader
    simp only [hhb]
    rcases hbad with hb0 | hb4
    · rw [if_pos hb0]
    · by_cases hb0 : decU32At hb 0 ≠ HeaderMagicNumber
      · rw [if_pos hb0]
      · rw [if_neg hb0, if_pos hb4]
  have hmain : Parse bs = .error .formatError := by
    unfold Parse
    simp only [hph]
  refine ⟨hmain, ?_⟩
  intro st hok
  rw [hmain] at hok
  cases hok

/-- Witness for C6: forty zero bytes decode a zero magic number, and parsing
fails with a `FormatError`. -/
theorem Parse_bad_magic_formatError_witness :
    Parse (List.replicate 40 0) = .error .formatError :=
  (Parse_bad_magic_formatError (List.replicate 40 0) (List.replicate 40 0) (by decide)
    (Or.inl (by decide))).1

/-! ## C1: parse ∘ serialize round-trip — helper lemmas -/

theorem decU32At_zero (l : List Nat) : decU32At l 0 = decU32 l := by
  simp [decU32At]

theorem decU32At_skip4 (x : Nat) (rest : List Nat) (k : Nat) :
    decU32At (encU32 x ++ rest) (4 + k) = decU32At rest k := by
  unfold decU32At
  rw [show (4 + k) = (encU32 x).length + k from rfl, List.drop_append]

theorem ChunkType.ofU32_toU32 (t : ChunkType) : ChunkType.ofU32 t.toU32 = some t := by
  cases t <;> rfl

theorem ChunkType.toU32_lt (t : ChunkType) : t.toU32 < u32Mod := by
  cases t <;> simp [ChunkType.toU32, u32Mod]

theorem ChunkType.not_named_of_raw (t : ChunkType) (h : t.isRawKind = true) :
    t.isNamedKind = false := by
  cases t <;> simp_all [ChunkType.isRawKind, ChunkType.isNamedKind]

theorem layoutChunks_length (cs : List ChunkContent) : ∀ pos : Nat,
    (layoutChunks pos cs).length = cs.length := by
  induction cs with
  | nil => intro pos; rfl
  | cons c rest ih =>
    intro pos
    simp only [layoutChunks, List.length_cons, ih]

theorem layoutChunks_kinds (cs : List ChunkContent) : ∀ pos : Nat,
    (layoutChunks pos cs).map (fun t => t.1.Type') = cs.map ChunkContent.kind := by
  induction cs with
  | nil => intro pos; rfl
  | cons c rest ih =>
    intro pos
    simp only [layoutChunks, List.map_cons, ih]

theorem chunkTable_length (tbl : List (ChunkHeader × List Nat)) :
    ((tbl.map fun t => encodeChunkHeader t.1).flatten).length = 16 * tbl.length := by
  induction tbl with
  | nil => rfl
  | cons t rest ih =>
    simp only [List.map_cons, List.flatten_cons, List.length_append, ih,
      List.length_cons]
    have : (encodeChunkHeader t.1).length = 16 := rfl
    omega

theorem readU32List_encoded (xs : List Nat) : ∀ (pre post : List Nat),
    (∀ x ∈ xs, x < u32Mod) →
    readU32List (pre ++ (xs.flatMap encU32 ++ post)) pre.length xs.length = some xs := by
  induction xs with
  | nil => intro pre post _; rfl
  | cons x rest ih =>
    intro pre post hbound
    simp only [List.flatMap_cons, List.append_assoc, List.length_cons]
    unfold readU32List
    rw [readU32_encU32 x pre (rest.flatMap encU32 ++ post)]
    have hx : x % u32Mod = x := Nat.mod_eq_of_lt (hbound x (by simp))
    have hpre : pre.length + 4 = (pre ++ encU32 x).length := by
      simp [encU32]
    rw [hpre]
    have hlist : pre ++ (encU32 x ++ (rest.flatMap encU32 ++ post)) =
        (pre ++ encU32 x) ++ (rest.flatMap encU32 ++ post) := by
      simp [List.append_assoc]
    rw [hlist, ih (pre ++ encU32 x) post (fun y hy => hbound y (by simp [hy])), hx]

theorem readNames_encoded (names : List (List Nat)) : ∀ (pre post : List Nat),
    readNames (pre ++ (names.flatten ++ post)) pre.length (names.map List.length) =
      some names := by
  induction names with
  | nil => intro pre post; rfl
  | cons nm rest ih =>
    intro pre post
    simp only [List.flatten_cons, List.append_assoc, List.map_cons]
    unfold readNames
    rw [readBytes_shift0, readBytes_prefix nm (rest.flatten ++ post)]
    have hpre : pre.length + nm.length = (pre ++ nm).length := by
      simp
    rw [hpre]
    have hlist : pre ++ (nm ++ (rest.flatten ++ post)) =
        (pre ++ nm) ++ (rest.flatten ++ post) := by
      simp [List.append_assoc]
    rw [hlist, ih (pre ++ nm) post]

theorem zip_entries_id (es : List (List Nat × ArchiveRegion)) :
    List.zip (es.map fun e => e.1)
      (List.zipWith ArchiveRegion.mk (es.map fun e => e.2.Offset)
        (es.map fun e => e.2.Size)) = es := by
  induction es with
  | nil => rfl
  | cons e rest ih =>
    simp only [List.map_cons, List.zipWith_cons_cons, List.zip_cons_cons, ih]

theorem encU32_length (x : Nat) : (encU32 x).length = 4 := rfl

/-- Decoding a serialized `NamedResourceArray` at its own position recovers
the entries exactly. -/
theorem parseNamedArray_encoded (k : ChunkType) (es : List (List Nat × ArchiveRegion))
    (pre post : List Nat) (hn : es.length < u32Mod) (hwf : ∀ e ∈ es, entryWF e) :
    parseNamedArray (pre ++ (chunkPayloadBytes (ChunkContent.named k es) ++ post))
      pre.length = some es := by
  have hlensb : ∀ x ∈ es.map (fun e => e.1.length), x < u32Mod := by
    intro x hx
    obtain ⟨e, he, rfl⟩ := List.mem_map.1 hx
    exact (hwf e he).1
  have hsizb : ∀ x ∈ es.map (fun e => e.2.Size), x < u32Mod := by
    intro x hx
    obtain ⟨e, he, rfl⟩ := List.mem_map.1 hx
    exact (hwf e he).2.2
  have hoffb : ∀ x ∈ es.map (fun e => e.2.Offset), x < u32Mod := by
    intro x hx
    obtain ⟨e, he, rfl⟩ := List.mem_map.1 hx
    exact (hwf e he).2.1
  have hbs : pre ++ (chunkPayloadBytes (ChunkContent.named k es) ++ post) =
      pre ++ (encU32 es.length ++ (encU32 padValue ++
        ((es.map fun e => e.1.length).flatMap encU32 ++
        ((es.map fun e => e.2.Size).flatMap encU32 ++
        ((es.map fun e => e.2.Offset).flatMap encU32 ++
        ((es.map fun e => e.1).flatten ++ post)))))) := by
    simp [chunkPayloadBytes, List.append_assoc]
  have h1 : readU32 (pre ++ (chunkPayloadBytes (ChunkContent.named k es) ++ post))
      pre.length = some es.length := by
    rw [hbs, readU32_encU32, Nat.mod_eq_of_lt hn]
  have h2 : readU32List (pre ++ (chunkPayloadBytes (ChunkContent.named k es) ++ post))
      (pre.length + 8) es.length = some (es.map fun e => e.1.length) := by
    have h := readU32List_encoded (es.map fun e => e.1.length)
      (pre ++ encU32 es.length ++ encU32 padValue)
      ((es.map fun e => e.2.Size).flatMap encU32 ++
        ((es.map fun e => e.2.Offset).flatMap encU32 ++
          ((es.map fun e => e.1).flatten ++ post))) hlensb
    have e2 : (pre ++ encU32 es.length ++ encU32 padValue) ++
        ((es.map fun e => e.1.length).flatMap encU32 ++
          ((es.map fun e => e.2.Size).flatMap encU32 ++
            ((es.map fun e => e.2.Offset).flatMap encU32 ++
              ((es.map fun e => e.1).flatten ++ post)))) =
        pre ++ (chunkPayloadBytes (ChunkContent.named k es) ++ post) := by
      rw [hbs]
      simp [List.append_assoc]
    have p2 : (pre ++ encU32 es.length ++ encU32 padValue).length = pre.length + 8 := by
      simp only [List.length_append, encU32_length]
    have n2 : (es.map fun e => e.1.length).length = es.length := List.length_map _ _
    rw [e2, p2, n2] at h
    exact h
  have h3 : readU32List (pre ++ (chunkPayloadBytes (ChunkContent.named k es) ++ post))
      (pre.length + 8 + 4 * es.length) es.length = some (es.map fun e => e.2.Size) := by
    have h := readU32List_encoded (es.map fun e => e.2.Size)
      (pre ++ encU32 es.length ++ encU32 padValue ++
        (es.map fun e => e.1.length).flatMap encU32)
      ((es.map fun e => e.2.Offset).flatMap encU32 ++
        ((es.map fun e => e.1).flatten ++ post)) hsizb
    have e3 : (pre ++ encU32 es.length ++ encU32 padValue ++
        (es.map fun e => e.1.length).flatMap encU32) ++
        ((es.map fun e => e.2.Size).flatMap encU32 ++
          ((es.map fun e => e.2.Offset).flatMap encU32 ++
            ((es.map fun e => e.1).flatten ++ post))) =
        pre ++ (chunkPayloadBytes (ChunkContent.named k es) ++ post) := by
      rw [hbs]
      simp [List.append_assoc]
    have p3 : (pre ++ encU32 es.length ++ encU32 padValue ++
        (es.map fun e => e.1.length).flatMap encU32).length =
        pre.length + 8 + 4 * es.length := by
      simp only [List.length_append, encU32_length, flatMap_encU32_length, List.length_map]
    have n3 : (es.map fun e => e.2.Size).length = es.length := List.length_map _ _
    rw [e3, p3, n3] at h
    exact h
  have h4 : readU32List (pre ++ (chunkPayloadBytes (ChunkContent.named k es) ++ post))
      (pre.length + 8 + 8 * es.length) es.length = some (es.map fun e => e.2.Offset) := by
    have h := readU32List_encoded (es.map fun e => e.2.Offset)
      (pre ++ encU32 es.length ++ encU32 padValue ++
        (es.map fun e => e.1.length).flatMap encU32 ++
        (es.map fun e => e.2.Size).flatMap encU32)
      ((es.map fun e => e.1).flatten ++ post) hoffb
    have e4 : (pre ++ encU32 es.length ++ encU32 padValue ++
        (es.map fun e => e.1.length).flatMap encU32 ++
        (es.map fun e => e.2.Size).flatMap encU32) ++
        ((es.map fun e => e.2.Offset).flatMap encU32 ++
          ((es.map fun e => e.1).flatten ++ post)) =
        pre ++ (chunkPayloadBytes (ChunkContent.named k es) ++ post) := by
      rw [hbs]
      simp [List.append_assoc]
    have p4 : (pre ++ encU32 es.length ++ encU32 padValue ++
        (es.map fun e => e.1.length).flatMap encU32 ++
        (es.map fun e => e.2.Size).flatMap encU32).length =
        pre.length + 8 + 8 * es.length := by
      simp only [List.length_append, encU32_length, flatMap_encU32_length, List.length_map]
      omega
    have n4 : (es.map fun e => e.2.Offset).length = es.length := List.length_map _ _
    rw [e4, p4, n4] at h
    exact h
  have h5 : readNames (pre ++ (chunkPayloadBytes (ChunkContent.named k es) ++ post))
      (pre.length + 8 + 12 * es.length) (es.map fun e => e.1.length) =
      some (es.map fun e => e.1) := by
    have h := readNames_encoded (es.map fun e => e.1)
      (pre ++ encU32 es.length ++ encU32 padValue ++
        (es.map fun e => e.1.length).flatMap encU32 ++
        (es.map fun e => e.2.Size).flatMap encU32 ++
        (es.map fun e => e.2.Offset).flatMap encU32) post
    have e5 : (pre ++ encU32 es.length ++ encU32 padValue ++
        (es.map fun e => e.1.length).flatMap encU32 ++
        (es.map fun e => e.2.Size).flatMap encU32 ++
        (es.map fun e => e.2.Offset).flatMap encU32) ++
        ((es.map fun e => e.1).flatten ++ post) =
        pre ++ (chunkPayloadBytes (ChunkContent.named k es) ++ post) := by
      rw [hbs]
      simp [List.append_assoc]
    have p5 : (pre ++ encU32 es.length ++ encU32 padValue ++
        (es.map fun e => e.1.length).flatMap encU32 ++
        (es.map fun e => e.2.Size).flatMap encU32 ++
        (es.map fun e => e.2.Offset).flatMap encU32).length =
        pre.length + 8 + 12 * es.length := by
      simp only [List.length_append, encU32_length, flatMap_encU32_length, List.length_map]
      omega
    have n5 : (es.map fun e => e.1).map List.length = es.map fun e => e.1.length := by
      rw [List.map_map]
      rfl
    rw [e5, p5, n5] at h
    exact h
  unfold parseNamedArray
  simp only [h1, h2, h3, h4, h5, zip_entries_id]

/-- Decoding the laid-out chunk payloads through their recomputed chunk
headers recovers every chunk content exactly. -/
theorem parseChunkContents_layout (cs : List ChunkContent) : ∀ (pre post : List Nat),
    (∀ c ∈ cs, c.WF) →
    parseChunkContents (pre ++ (((layoutChunks pre.length cs).map Prod.snd).flatten ++ post))
      ((layoutChunks pre.length cs).map Prod.fst) = .ok cs := by
  induction cs with
  | nil => intro pre post _; rfl
  | cons c rest ih =>
    intro pre post hwf
    simp only [layoutChunks, List.map_cons, List.flatten_cons]
    have hcwf := hwf c (by simp)
    set pl := chunkPayloadBytes c with hpl
    set padding := List.replicate (pad8 pl.length) 0 with hpadding
    set blobrest := ((layoutChunks (pre.length + (pl ++ padding).length) rest).map Prod.snd).flatten
      with hblobrest
    have hbsfull : pre ++ ((pl ++ padding ++ blobrest) ++ post) =
        pre ++ (pl ++ (padding ++ (blobrest ++ post))) := by
      simp [List.append_assoc]
    have hhead : parseChunkContent
        (pre ++ ((pl ++ padding ++ blobrest) ++ post))
        ⟨c.kind, pl.length, pre.length⟩ = .ok c := by
      cases c with
      | named k es =>
        have hkind : ChunkType.isNamedKind k = true := by
          have := hwf (.named k es) (by simp)
          exact this.1
        unfold parseChunkContent
        simp only [ChunkContent.kind, hkind, if_true]
        have hbounds := hwf (.named k es) (by simp)
        have := parseNamedArray_encoded k es pre (padding ++ (blobrest ++ post))
          hbounds.2.1 hbounds.2.2
        rw [hbsfull]
        have hshape : pre ++ (pl ++ (padding ++ (blobrest ++ post))) =
            pre ++ (chunkPayloadBytes (ChunkContent.named k es) ++ (padding ++ (blobrest ++ post))) := by
          rw [hpl]
        rw [hshape, this]
      | raw k pl₀ =>
        have hraw : ChunkType.isRawKind k = true := by
          have := hwf (.raw k pl₀) (by simp)
          exact this.1
        have hnotnamed : ChunkType.isNamedKind k = false :=
          ChunkType.not_named_of_raw k hraw
        unfold parseChunkContent
        simp only [ChunkContent.kind, hnotnamed, Bool.false_eq_true, if_false, hraw, if_true]
        rw [hbsfull]
        have hplraw : pl = pl₀ := by
          rw [hpl]
          rfl
        rw [show pl.length = pl₀.length from by rw [hplraw]]
        rw [readBytes_shift0]
        have : pl ++ (padding ++ (blobrest ++ post)) = pl₀ ++ (padding ++ (blobrest ++ post)) := by
          rw [hplraw]
        rw [this, show pl₀.length = (pl₀).length from rfl, readBytes_prefix]
    have htail : parseChunkContents
        (pre ++ ((pl ++ padding ++ blobrest) ++ post))
        ((layoutChunks (pre.length + (pl ++ padding).length) rest).map Prod.fst) = .ok rest := by
      have hlen : pre.length + (pl ++ padding).length = (pre ++ (pl ++ padding)).length := by
        simp
      have hlist : pre ++ ((pl ++ padding ++ blobrest) ++ post) =
          (pre ++ (pl ++ padding)) ++
            (((layoutChunks (pre ++ (pl ++ padding)).length rest).map Prod.snd).flatten ++ post) := by
        rw [← hlen, hblobrest]
        simp [List.append_assoc]
      rw [hlist, hlen]
      exact ih (pre ++ (pl ++ padding)) post (fun c hc => hwf c (by simp [hc]))
    unfold parseChunkContents
    simp only [hhead, htail]

theorem encodeChunkHeader_assoc (h : ChunkHeader) :
    encodeChunkHeader h =
      encU32 h.Type'.toU32 ++ (encU32 h.Size ++ (encU32 h.Offset ++ encU32 padValue)) := by
  simp [encodeChunkHeader, List.append_assoc]

theorem decU32At_encodeChunkHeader_type (h : ChunkHeader) :
    decU32At (encodeChunkHeader h) 0 = h.Type'.toU32 % u32Mod := by
  rw [encodeChunkHeader_assoc, decU32At_zero, decU32_encU32]

theorem decU32At_encodeChunkHeader_size (h : ChunkHeader) :
    decU32At (encodeChunkHeader h) 4 = h.Size % u32Mod := by
  rw [encodeChunkHeader_assoc, show (4 : Nat) = 4 + 0 from rfl, decU32At_skip4,
    decU32At_zero, decU32_encU32]

theorem decU32At_encodeChunkHeader_offset (h : ChunkHeader) :
    decU32At (encodeChunkHeader h) 8 = h.Offset % u32Mod := by
  rw [encodeChunkHeader_assoc, show (8 : Nat) = 4 + (4 + 0) from rfl, decU32At_skip4,
    decU32At_skip4, decU32At_zero, decU32_encU32]

/-- Decoding a serialized chunk table recovers the chunk headers exactly. -/
theorem parseChunkHeaders_encoded (hs : List ChunkHeader) : ∀ (pre post : List Nat),
    (∀ h ∈ hs, h.Size < u32Mod ∧ h.Offset < u32Mod) →
    parseChunkHeaders (pre ++ ((hs.map encodeChunkHeader).flatten ++ post)) pre.length
      hs.length = .ok hs := by
  induction hs with
  | nil => intro pre post _; rfl
  | cons h rest ih =>
    intro pre post hbound
    simp only [List.map_cons, List.flatten_cons, List.length_cons]
    have hshape : pre ++ ((encodeChunkHeader h ++ (rest.map encodeChunkHeader).flatten) ++ post) =
        pre ++ (encodeChunkHeader h ++ ((rest.map encodeChunkHeader).flatten ++ post)) := by
      simp [List.append_assoc]
    rw [hshape]
    have h16 : readBytes (pre ++ (encodeChunkHeader h ++ ((rest.map encodeChunkHeader).flatten ++ post)))
        pre.length 16 = some (encodeChunkHeader h) := by
      rw [readBytes_shift0, show (16 : Nat) = (encodeChunkHeader h).length from rfl,
        readBytes_prefix]
    unfold parseChunkHeaders
    simp only [h16, decU32At_encodeChunkHeader_type, decU32At_encodeChunkHeader_size,
      decU32At_encodeChunkHeader_offset,
      Nat.mod_eq_of_lt (ChunkType.toU32_lt h.Type'),
      Nat.mod_eq_of_lt (hbound h (by simp)).1,
      Nat.mod_eq_of_lt (hbound h (by simp)).2,
      ChunkType.ofU32_toU32]
    have htail : parseChunkHeaders
        (pre ++ (encodeChunkHeader h ++ ((rest.map encodeChunkHeader).flatten ++ post)))
        (pre.length + 16) rest.length = .ok rest := by
      have hlen : pre.length + 16 = (pre ++ encodeChunkHeader h).length := by
        simp [List.length_append]
        rfl
      have hlist : pre ++ (encodeChunkHeader h ++ ((rest.map encodeChunkHeader).flatten ++ post)) =
          (pre ++ encodeChunkHeader h) ++ ((rest.map encodeChunkHeader).flatten ++ post) := by
        simp [List.append_assoc]
      rw [hlen, hlist]
      exact ih (pre ++ encodeChunkHeader h) post (fun x hx => hbound x (by simp [hx]))
    simp only [htail]

/-- Parsing a serialized `ArchiveHeader` with the declared magic and version
recovers it exactly. -/
theorem parseHeader_encode (b0 b1 b2 b3 b4 b5 n : Nat) (rest : List Nat)
    (hb0 : b0 < u32Mod) (hb1 : b1 < u32Mod) (hb2 : b2 < u32Mod) (hb3 : b3 < u32Mod)
    (hb4 : b4 < u32Mod) (hb5 : b5 < u32Mod) (hn : n < u32Mod) :
    parseHeader (encodeArchiveHeader
        ⟨HeaderMagicNumber, HeaderVersion, [b0, b1, b2, b3, b4, b5], n⟩ ++ rest) =
      .ok ⟨HeaderMagicNumber, HeaderVersion, [b0, b1, b2, b3, b4, b5], n⟩ := by
  have hassoc : encodeArchiveHeader
      ⟨HeaderMagicNumber, HeaderVersion, [b0, b1, b2, b3, b4, b5], n⟩ =
      encU32 HeaderMagicNumber ++ (encU32 HeaderVersion ++ (encU32 b0 ++ (encU32 b1 ++
        (encU32 b2 ++ (encU32 b3 ++ (encU32 b4 ++ (encU32 b5 ++
          (encU32 n ++ encU32 padValue)))))))) := by
    simp [encodeArchiveHeader, List.append_assoc]
  have hlen : (encodeArchiveHeader
      ⟨HeaderMagicNumber, HeaderVersion, [b0, b1, b2, b3, b4, b5], n⟩).length = 40 := by
    rw [hassoc]
    simp only [List.length_append, encU32_length]
  have hread : readBytes (encodeArchiveHeader
      ⟨HeaderMagicNumber, HeaderVersion, [b0, b1, b2, b3, b4, b5], n⟩ ++ rest) 0 40 =
      some (encodeArchiveHeader ⟨HeaderMagicNumber, HeaderVersion, [b0, b1, b2, b3, b4, b5], n⟩) := by
    rw [← hlen]
    exact readBytes_prefix _ rest
  have hM : HeaderMagicNumber % u32Mod = HeaderMagicNumber := by decide
  have hV : HeaderVersion % u32Mod = HeaderVersion := by decide
  have d0 : decU32At (encodeArchiveHeader
      ⟨HeaderMagicNumber, HeaderVersion, [b0, b1, b2, b3, b4, b5], n⟩) 0 = HeaderMagicNumber := by
    rw [hassoc, decU32At_zero, decU32_encU32, hM]
  have d4 : decU32At (encodeArchiveHeader
      ⟨HeaderMagicNumber, HeaderVersion, [b0, b1, b2, b3, b4, b5], n⟩) 4 = HeaderVersion := by
    rw [hassoc, show (4 : Nat) = 4 + 0 from rfl, decU32At_skip4, decU32At_zero,
      decU32_encU32, hV]
  have d8 : decU32At (encodeArchiveHeader
      ⟨HeaderMagicNumber, HeaderVersion, [b0, b1, b2, b3, b4, b5], n⟩) 8 = b0 := by
    rw [hassoc, show (8 : Nat) = 4 + (4 + 0) from rfl, decU32At_skip4, decU32At_skip4,
      decU32At_zero, decU32_encU32, Nat.mod_eq_of_lt hb0]
  have d12 : decU32At (encodeArchiveHeader
      ⟨HeaderMagicNumber, HeaderVersion, [b0, b1, b2, b3, b4, b5], n⟩) 12 = b1 := by
    rw [hassoc, show (12 : Nat) = 4 + (4 + (4 + 0)) from rfl, decU32At_skip4, decU32At_skip4,
      decU32At_skip4, decU32At_zero, decU32_encU32, Nat.mod_eq_of_lt hb1]
  have d16 : decU32At (encodeArchiveHeader
      ⟨HeaderMagicNumber, HeaderVersion, [b0, b1, b2, b3, b4, b5], n⟩) 16 = b2 := by
    rw [hassoc, show (16 : Nat) = 4 + (4 + (4 + (4 + 0))) from rfl, decU32At_skip4,
      decU32At_skip4, decU32At_skip4, decU32At_skip4, decU32At_zero, decU32_encU32,
      Nat.mod_eq_of_lt hb2]
  have d20 : decU32At (encodeArchiveHeader
      ⟨HeaderMagicNumber, HeaderVersion, [b0, b1, b2, b3, b4, b5], n⟩) 20 = b3 := by
    rw [hassoc, show (20 : Nat) = 4 + (4 + (4 + (4 + (4 + 0)))) from rfl, decU32At_skip4,
      decU32At_skip4, decU32At_skip4, decU32At_skip4, decU32At_skip4, decU32At_zero,
      decU32_encU32, Nat.mod_eq_of_lt hb3]
  have d24 : decU32At (encodeArchiveHeader
      ⟨HeaderMagicNumber, HeaderVersion, [b0, b1, b2, b3, b4, b5], n⟩) 24 = b4 := by
    rw [hassoc, show (24 : Nat) = 4 + (4 + (4 + (4 + (4 + (4 + 0))))) from rfl,
      decU32At_skip4, decU32At_skip4, decU32At_skip4, decU32At_skip4, decU32At_skip4,
      decU32At_skip4, decU32At_zero, decU32_encU32, Nat.mod_eq_of_lt hb4]
  have d28 : decU32At (encodeArchiveHeader
      ⟨HeaderMagicNumber, HeaderVersion, [b0, b1, b2, b3, b4, b5], n⟩) 28 = b5 := by
    rw [hassoc, show (28 : Nat) = 4 + (4 + (4 + (4 + (4 + (4 + (4 + 0)))))) from rfl,
      decU32At_skip4, decU32At_skip4, decU32At_skip4, decU32At_skip4, decU32At_skip4,
      decU32At_skip4, decU32At_skip4, decU32At_zero, decU32_encU32, Nat.mod_eq_of_lt hb5]
  have d32 : decU32At (encodeArchiveHeader
      ⟨HeaderMagicNumber, HeaderVersion, [b0, b1, b2, b3, b4, b5], n⟩) 32 = n := by
    rw [hassoc, show (32 : Nat) = 4 + (4 + (4 + (4 + (4 + (4 + (4 + (4 + 0))))))) from rfl,
      decU32At_skip4, decU32At_skip4, decU32At_skip4, decU32At_skip4, decU32At_skip4,
      decU32At_skip4, decU32At_skip4, decU32At_skip4, decU32At_zero, decU32_encU32,
      Nat.mod_eq_of_lt hn]
  unfold parseHeader
  simp only [hread, d0, d4, d8, d12, d16, d20, d24, d28, d32]
  rw [if_neg (by simp : ¬HeaderMagicNumber ≠ HeaderMagicNumber),
    if_neg (by simp : ¬HeaderVersion ≠ HeaderVersion)]

/-- Every laid-out chunk header points into the payload area after `pos`. -/
theorem layoutChunks_bounds (cs : List ChunkContent) : ∀ (pos : Nat)
    (t : ChunkHeader × List Nat), t ∈ layoutChunks pos cs →
    pos ≤ t.1.Offset ∧
      t.1.Offset + t.1.Size ≤ pos + (((layoutChunks pos cs).map Prod.snd).flatten).length := by
  induction cs with
  | nil =>
    intro pos t ht
    simp [layoutChunks] at ht
  | cons c rest ih =>
    intro pos t ht
    simp only [layoutChunks, List.mem_cons] at ht
    simp only [layoutChunks, List.map_cons, List.flatten_cons, List.length_append]
    rcases ht with rfl | ht
    · refine ⟨le_refl _, ?_⟩
      simp only [List.length_append, List.length_replicate]
      omega
    · have h := ih (pos + (chunkPayloadBytes c ++
        List.replicate (pad8 (chunkPayloadBytes c).length) 0).length) t ht
      simp only [List.length_append, List.length_replicate] at h ⊢
      constructor
      · omega
      · omega

/-- Round-trip, explicit form: parsing the serialized image of a well-formed
index recovers the index exactly. -/
theorem serialize_parse_aux (b0 b1 b2 b3 b4 b5 : Nat) (cs : List ChunkContent)
    (hbb : ∀ b ∈ [b0, b1, b2, b3, b4, b5], b < u32Mod) (hclen : cs.length < u32Mod)
    (hnodup : (cs.map ChunkContent.kind).Nodup) (hcwf : ∀ c ∈ cs, c.WF)
    (hfit : SerializeFits ⟨[b0, b1, b2, b3, b4, b5], cs⟩) :
    Parse (Serialize ⟨[b0, b1, b2, b3, b4, b5], cs⟩) =
      .ok ⟨[b0, b1, b2, b3, b4, b5], cs⟩ := by
  rw [show Serialize ⟨[b0, b1, b2, b3, b4, b5], cs⟩ =
      encodeArchiveHeader ⟨HeaderMagicNumber, HeaderVersion, [b0, b1, b2, b3, b4, b5],
          cs.length⟩ ++
        (((layoutChunks (40 + 16 * cs.length) cs).map fun tc => encodeChunkHeader tc.1).flatten ++
          ((layoutChunks (40 + 16 * cs.length) cs).map fun tc => tc.2).flatten) from rfl]
  set Hd := encodeArchiveHeader ⟨HeaderMagicNumber, HeaderVersion, [b0, b1, b2, b3, b4, b5],
    cs.length⟩ with hHd
  set tbl := layoutChunks (40 + 16 * cs.length) cs with htbl
  set T := (tbl.map fun tc => encodeChunkHeader tc.1).flatten with hT
  set P := (tbl.map fun tc => tc.2).flatten with hP
  have hHdlen : Hd.length = 40 := by
    rw [hHd]
    rfl
  have hTlen : T.length = 16 * cs.length := by
    rw [hT, chunkTable_length, htbl, layoutChunks_length]
  have hfit' : 40 + 16 * cs.length + P.length < u32Mod := by
    have h := hfit
    unfold SerializeFits at h
    rw [show Serialize ⟨[b0, b1, b2, b3, b4, b5], cs⟩ = Hd ++ (T ++ P) from rfl] at h
    simp only [List.length_append, hHdlen, hTlen] at h
    omega
  have hPsnd : P = ((layoutChunks (40 + 16 * cs.length) cs).map Prod.snd).flatten := by
    rw [hP, htbl]
  have hph : parseHeader (Hd ++ (T ++ P)) =
      .ok ⟨HeaderMagicNumber, HeaderVersion, [b0, b1, b2, b3, b4, b5], cs.length⟩ := by
    rw [hHd]
    exact parseHeader_encode b0 b1 b2 b3 b4 b5 cs.length (T ++ P)
      (hbb b0 (by simp)) (hbb b1 (by simp)) (hbb b2 (by simp)) (hbb b3 (by simp))
      (hbb b4 (by simp)) (hbb b5 (by simp)) hclen
  have hbound_t : ∀ h ∈ tbl.map Prod.fst, h.Size < u32Mod ∧ h.Offset < u32Mod := by
    intro h hh
    obtain ⟨t, ht, rfl⟩ := List.mem_map.1 hh
    have hb := layoutChunks_bounds cs (40 + 16 * cs.length) t (by rw [htbl] at ht; exact ht)
    rw [← hPsnd] at hb
    omega
  have hch : parseChunkHeaders (Hd ++ (T ++ P)) 40 cs.length = .ok (tbl.map Prod.fst) := by
    have h := parseChunkHeaders_encoded (tbl.map Prod.fst) Hd P hbound_t
    rw [List.map_map] at h
    rw [show tbl.map (encodeChunkHeader ∘ Prod.fst) = tbl.map fun tc => encodeChunkHeader tc.1
      from rfl] at h
    rw [← hT] at h
    rw [hHdlen] at h
    rw [show (tbl.map Prod.fst).length = tbl.length from List.length_map _ _] at h
    rw [show tbl.length = cs.length from by rw [htbl, layoutChunks_length]] at h
    exact h
  have hkinds : (tbl.map Prod.fst).map ChunkHeader.Type' = cs.map ChunkContent.kind := by
    rw [List.map_map]
    rw [show tbl.map (ChunkHeader.Type' ∘ Prod.fst) = tbl.map fun t => t.1.Type' from rfl]
    rw [htbl, layoutChunks_kinds]
  have hnodup' : ((tbl.map Prod.fst).map ChunkHeader.Type').Nodup := by
    rw [hkinds]
    exact hnodup
  have hcc : parseChunkContents (Hd ++ (T ++ P)) (tbl.map Prod.fst) = .ok cs := by
    have h := parseChunkContents_layout cs (Hd ++ T) [] hcwf
    have hlen2 : (Hd ++ T).length = 40 + 16 * cs.length := by
      simp only [List.length_append, hHdlen, hTlen]
    rw [hlen2] at h
    rw [← hPsnd] at h
    rw [show (Hd ++ T) ++ (P ++ []) = Hd ++ (T ++ P) from by simp [List.append_assoc]] at h
    rw [show (layoutChunks (40 + 16 * cs.length) cs).map Prod.fst = tbl.map Prod.fst
      from by rw [htbl]] at h
    exact h
  unfold Parse
  simp only [hph]
  simp only [hch]
  rw [if_pos hnodup']
  simp only [hcc]

/-! ### Every successful parse yields a well-formed index -/

theorem readU32_lt_of_some (bs : List Nat) (pos x : Nat) (h : readU32 bs pos = some x) :
    x < u32Mod := by
  unfold readU32 at h
  cases hrb : readBytes bs pos 4 with
  | none => rw [hrb] at h; cases h
  | some l =>
    rw [hrb] at h
    have h' : decU32 l = x := by
      simpa using h
    rw [← h']
    exact decU32_lt l

theorem readU32List_ok (bs : List Nat) : ∀ (n pos : Nat) (xs : List Nat),
    readU32List bs pos n = some xs → xs.length = n ∧ ∀ x ∈ xs, x < u32Mod := by
  intro n
  induction n with
  | zero =>
    intro pos xs h
    unfold readU32List at h
    cases h
    simp
  | succ k ih =>
    intro pos xs h
    unfold readU32List at h
    cases hr : readU32 bs pos with
    | none => rw [hr] at h; cases h
    | some x =>
      rw [hr] at h
      cases hrest : readU32List bs (pos + 4) k with
      | none => rw [hrest] at h; cases h
      | some rest =>
        rw [hrest] at h
        cases h
        have hx := readU32_lt_of_some bs pos x hr
        have hrec := ih (pos + 4) rest hrest
        refine ⟨by simp [hrec.1], ?_⟩
        intro y hy
        rcases List.mem_cons.1 hy with rfl | hy
        · exact hx
        · exact hrec.2 y hy

theorem readNames_ok (bs : List Nat) : ∀ (lens : List Nat) (pos : Nat)
    (names : List (List Nat)), readNames bs pos lens = some names →
    names.map List.length = lens := by
  intro lens
  induction lens with
  | nil =>
    intro pos names h
    unfold readNames at h
    cases h
    rfl
  | cons len rest ih =>
    intro pos names h
    unfold readNames at h
    cases hr : readBytes bs pos len with
    | none => rw [hr] at h; cases h
    | some nm =>
      rw [hr] at h
      cases hrest : readNames bs (pos + len) rest with
      | none => rw [hrest] at h; cases h
      | some nms =>
        rw [hrest] at h
        cases h
        simp only [List.map_cons]
        rw [readBytes_length bs pos len nm hr, ih (pos + len) nms hrest]

theorem entryWF_of_components : ∀ (names : List (List Nat)) (offs sizes : List Nat),
    (∀ nm ∈ names, nm.length < u32Mod) → (∀ o ∈ offs, o < u32Mod) →
    (∀ s ∈ sizes, s < u32Mod) →
    ∀ e ∈ List.zip names (List.zipWith ArchiveRegion.mk offs sizes), entryWF e := by
  intro names
  induction names with
  | nil =>
    intro offs sizes _ _ _ e he
    simp at he
  | cons nm rest ih =>
    intro offs sizes hn ho hs e he
    cases offs with
    | nil => simp at he
    | cons o orest =>
      cases sizes with
      | nil => simp at he
      | cons s srest =>
        simp only [List.zipWith_cons_cons, List.zip_cons_cons, List.mem_cons] at he
        rcases he with rfl | he
        · exact ⟨hn nm (by simp), ho o (by simp), hs s (by simp)⟩
        · exact ih orest srest (fun x hx => hn x (by simp [hx]))
            (fun x hx => ho x (by simp [hx])) (fun x hx => hs x (by simp [hx])) e he

theorem parseNamedArray_ok (bs : List Nat) (pos : Nat)
    (es : List (List Nat × ArchiveRegion)) (h : parseNamedArray bs pos = some es) :
    es.length < u32Mod ∧ ∀ e ∈ es, entryWF e := by
  unfold parseNamedArray at h
  split at h
  · cases h
  · rename_i count hc
    split at h
    · rename_i lens sizes offs hlens hsizes hoffs
      split at h
      · rename_i names hnames
        cases h
        have hcount := readU32_lt_of_some bs pos count hc
        have hlens' := readU32List_ok bs count (pos + 8) lens hlens
        have hsizes' := readU32List_ok bs count (pos + 8 + 4 * count) sizes hsizes
        have hoffs' := readU32List_ok bs count (pos + 8 + 8 * count) offs hoffs
        have hnamlen := readNames_ok bs lens (pos + 8 + 12 * count) names hnames
        constructor
        · have hz : (List.zip names (List.zipWith ArchiveRegion.mk offs sizes)).length ≤
              names.length := by
            rw [List.length_zip]
            omega
          have hnl : names.length = lens.length := by
            rw [← hnamlen, List.length_map]
          omega
        · refine entryWF_of_components names offs sizes ?_ hoffs'.2 hsizes'.2
          intro nm hnm
          have hmem : nm.length ∈ names.map List.length := List.mem_map_of_mem _ hnm
          rw [hnamlen] at hmem
          exact hlens'.2 _ hmem
      · cases h
    · cases h

theorem parseChunkContent_ok (bs : List Nat) (ch : ChunkHeader) (c : ChunkContent)
    (hsz : ch.Size < u32Mod) (h : parseChunkContent bs ch = .ok c) :
    c.kind = ch.Type' ∧ c.WF := by
  unfold parseChunkContent at h
  by_cases hnamed : ch.Type'.isNamedKind = true
  · rw [if_pos hnamed] at h
    cases hpa : parseNamedArray bs ch.Offset with
    | none => rw [hpa] at h; cases h
    | some es =>
      rw [hpa] at h
      cases h
      have := parseNamedArray_ok bs ch.Offset es hpa
      exact ⟨rfl, hnamed, this.1, this.2⟩
  · rw [if_neg hnamed] at h
    by_cases hraw : ch.Type'.isRawKind = true
    · rw [if_pos hraw] at h
      cases hrb : readBytes bs ch.Offset ch.Size with
      | none => rw [hrb] at h; cases h
      | some payload =>
        rw [hrb] at h
        cases h
        refine ⟨rfl, hraw, ?_⟩
        rw [readBytes_length bs ch.Offset ch.Size payload hrb]
        exact hsz
    · rw [if_neg hraw] at h
      cases h

theorem parseChunkContents_ok (bs : List Nat) : ∀ (chs : List ChunkHeader)
    (cs : List ChunkContent), (∀ h ∈ chs, h.Size < u32Mod) →
    parseChunkContents bs chs = .ok cs →
    cs.map ChunkContent.kind = chs.map ChunkHeader.Type' ∧ cs.length = chs.length ∧
      ∀ c ∈ cs, c.WF := by
  intro chs
  induction chs with
  | nil =>
    intro cs _ h
    unfold parseChunkContents at h
    cases h
    simp
  | cons ch rest ih =>
    intro cs hsz h
    unfold parseChunkContents at h
    cases hc : parseChunkContent bs ch with
    | error e => rw [hc] at h; cases h
    | ok c =>
      rw [hc] at h
      cases hrest : parseChunkContents bs rest with
      | error e => rw [hrest] at h; cases h
      | ok cs' =>
        rw [hrest] at h
        cases h
        have hhead := parseChunkContent_ok bs ch c (hsz ch (by simp)) hc
        have htail := ih cs' (fun x hx => hsz x (by simp [hx])) hrest
        refine ⟨?_, by simp [htail.2.1], ?_⟩
        · simp only [List.map_cons, hhead.1, htail.1]
        · intro x hx
          rcases List.mem_cons.1 hx with rfl | hx
          · exact hhead.2
          · exact htail.2.2 x hx

theorem parseHeader_ok (bs : List Nat) (hdr : ArchiveHeader)
    (h : parseHeader bs = .ok hdr) :
    hdr.BlockBaseOffsets.length = 6 ∧ (∀ b ∈ hdr.BlockBaseOffsets, b < u32Mod) ∧
      hdr.NumChunks < u32Mod := by
  unfold parseHeader at h
  split at h
  · cases h
  · split at h
    · cases h
    · split at h
      · cases h
      · cases h
        refine ⟨rfl, ?_, decU32_lt _⟩
        intro b hmem
        simp only [List.mem_cons, List.not_mem_nil, or_false] at hmem
        rcases hmem with rfl | rfl | rfl | rfl | rfl | rfl <;> exact decU32_lt _

theorem parseChunkHeaders_ok (bs : List Nat) : ∀ (n pos : Nat) (hs : List ChunkHeader),
    parseChunkHeaders bs pos n = .ok hs →
    hs.length = n ∧ ∀ h ∈ hs, h.Size < u32Mod ∧ h.Offset < u32Mod := by
  intro n
  induction n with
  | zero =>
    intro pos hs h
    unfold parseChunkHeaders at h
    cases h
    simp
  | succ k ih =>
    intro pos hs h
    unfold parseChunkHeaders at h
    split at h
    · cases h
    · split at h
      · cases h
      · rename_i cb hrb ty hty
        split at h
        · rename_i rest hrest
          cases h
          have htail := ih (pos + 16) rest hrest
          refine ⟨by simp [htail.1], ?_⟩
          intro x hx
          rcases List.mem_cons.1 hx with rfl | hx
          · exact ⟨decU32_lt _, decU32_lt _⟩
          · exact htail.2 x hx
        · cases h

/-- Every successful parse produces a well-formed index. -/
theorem Parse_ok_WF (bs : List Nat) (st : ParsedArchive) (h : Parse bs = .ok st) :
    st.WF := by
  unfold Parse at h
  split at h
  · cases h
  · rename_i hdr hph
    split at h
    · cases h
    · rename_i chs hch
      split at h
      · rename_i hnd
        split at h
        · cases h
        · rename_i cs hcc
          cases h
          have hh := parseHeader_ok bs hdr hph
          have hc := parseChunkHeaders_ok bs hdr.NumChunks 40 chs hch
          have hcs := parseChunkContents_ok bs chs cs (fun x hx => (hc.2 x hx).1) hcc
          refine ⟨hh.1, hh.2.1, ?_, ?_, hcs.2.2⟩
          · rw [show (ParsedArchive.mk hdr.BlockBaseOffsets cs).Chunks = cs from rfl]
            rw [hcs.2.1, hc.1]
            exact hh.2.2
          · rw [show (ParsedArchive.mk hdr.BlockBaseOffsets cs).Chunks = cs from rfl]
            rw [hcs.1]
            exact hnd
      · cases h

/-- Round-trip for any well-formed index whose serialized image is
`Uint32`-addressable. -/
theorem serialize_parse_roundtrip (st : ParsedArchive) (hwf : st.WF)
    (hfit : SerializeFits st) : Parse (Serialize st) = .ok st := by
  obtain ⟨offs, cs⟩ := st
  obtain ⟨hblen, hbbound, hclen, hnodup, hcwf⟩ := hwf
  have h6 : ∃ b0 b1 b2 b3 b4 b5, offs = [b0, b1, b2, b3, b4, b5] := by
    rcases offs with _ | ⟨b0, _ | ⟨b1, _ | ⟨b2, _ | ⟨b3, _ | ⟨b4, _ | ⟨b5, _ | ⟨x, tl⟩⟩⟩⟩⟩⟩⟩ <;>
      simp only [List.length_cons, List.length_nil] at hblen
    all_goals try exact ⟨_, _, _, _, _, _, rfl⟩
    all_goals omega
  obtain ⟨b0, b1, b2, b3, b4, b5, rfl⟩ := h6
  exact serialize_parse_aux b0 b1 b2 b3 b4 b5 cs hbbound hclen hnodup hcwf hfit

/-- C1: for every valid archive byte stream `A` — one the parser accepts,
whose serialized image is addressable by the format's `Uint32` offsets —
parsing `A`, serializing the parsed archive, and parsing the output again
yields a state whose per-kind name-to-region maps and block base offsets are
identical to those of parsing `A` directly (indeed the whole index is
recovered exactly). -/
theorem parse_serialize_parse_roundtrip (A : List Nat) (st : ParsedArchive)
    (hparse : Parse A = .ok st) (hfit : SerializeFits st) :
    ∃ st' : ParsedArchive, Parse (Serialize st) = .ok st' ∧
      st'.BaseOffsets = st.BaseOffsets ∧
      ∀ kind : ChunkType, st'.ResMap kind = st.ResMap kind := by
  refine ⟨st, ?_, rfl, fun _ => rfl⟩
  exact serialize_parse_roundtrip st (Parse_ok_WF A st hparse) hfit

/-- Witness for C1: the serialized empty archive (six zero base offsets, no
chunks) parses back to itself. -/
theorem parse_serialize_parse_roundtrip_witness :
    ∃ st' : ParsedArchive,
      Parse (Serialize ⟨[0, 0, 0, 0, 0, 0], []⟩) = .ok st' ∧
      st'.BaseOffsets = (ParsedArchive.mk [0, 0, 0, 0, 0, 0] []).BaseOffsets ∧
      ∀ kind : ChunkType,
        st'.ResMap kind = (ParsedArchive.mk [0, 0, 0, 0, 0, 0] []).ResMap kind :=
  parse_serialize_parse_roundtrip (Serialize ⟨[0, 0, 0, 0, 0, 0], []⟩)
    ⟨[0, 0, 0, 0, 0, 0], []⟩ (by rfl) (by unfold SerializeFits; decide)

end DeviceObjectArchive
